import Mathlib

/-!
Verification of the incremental sort view `GtkTim2SortModel`
(src/gtk/gtktim2sortmodel.c).

The model is a shallow embedding: the buffer of `SortItem`s is a Lean list,
the observed source model is a Lean list, the sorter is a comparison
function together with an order state, and every C function of the sort
model becomes a Lean function on an explicit record state.  Stateful C
functions that emit `items-changed` signals return, next to the new state,
the list of emitted `(position, removed, added)` notifications.

The run-merge engine (`GtkTimSort`) is an external collaborator whose
source is not part of the studied core; where its behaviour matters it is
modelled from the spec (see `gtk_tim2_sort_model_finish_sorting` and
`gtk_tim2_sort_model_sort_step`).
-/

/-- Order state of a sorter (`GtkSorterOrder`). -/
inductive SorterOrder : Type
  | NONE
  | PARTIAL
  | TOTAL
deriving DecidableEq, Repr

/-- The comparator collaborator (`GtkSorter`): a comparison function plus an
order state as reported by `gtk_sorter_get_order`. -/
structure Sorter (α : Type) : Type where
  compare : α → α → Ordering
  order : SorterOrder

/-- One buffer entry: a held element handle together with the position the
element currently occupies in the unsorted source model (`struct SortItem`). -/
structure SortItem (α : Type) : Type where
  item : α
  position : Nat
deriving DecidableEq, Repr

/-- The state of a `GtkTim2SortModel`: observed source model, sorter,
incremental flag, whether an idle sort callback is scheduled
(`sort_cb != 0`), and the items buffer (empty means pass-through). -/
structure GtkTim2SortModel (α : Type) : Type where
  model : Option (List α)
  sorter : Option (Sorter α)
  incremental : Bool
  sort_cb : Bool
  items : List (SortItem α)

/-- An `items-changed` notification `(position, removed, added)`. -/
abbrev Notif : Type := Nat × Nat × Nat

variable {α : Type}

/-- `gtk_sorter_compare` applied through the model's sorter field; only
reachable code paths use it with a present sorter. -/
def sorter_compare (s : Option (Sorter α)) : α → α → Ordering :=
  match s with
  | some srt => srt.compare
  | none => fun _ _ => Ordering.eq

/-- `gtk_sorter_get_order` on the model's sorter field. -/
def sorter_get_order (s : Option (Sorter α)) : SorterOrder :=
  match s with
  | some srt => srt.order
  | none => SorterOrder.NONE

/-- `sort_func`: the buffer ordering induced by the sorter; an item may
stay before another whenever comparing them does not yield `greater`. -/
def sort_func (cmp : α → α → Ordering) (sa sb : SortItem α) : Prop :=
  cmp sa.item sb.item ≠ Ordering.gt

instance (cmp : α → α → Ordering) : DecidableRel (sort_func cmp) := fun sa sb =>
  if h : cmp sa.item sb.item = Ordering.gt then
    Decidable.isFalse (fun hc => hc h)
  else
    Decidable.isTrue h

/-- `gtk_tim2_sort_model_get_n_items`. -/
def gtk_tim2_sort_model_get_n_items (s : GtkTim2SortModel α) : Nat :=
  match s.model with
  | none => 0
  | some m => m.length

/-- `gtk_tim2_sort_model_get_item`.  `g_list_model_get_item` on the source
returns NULL for an out-of-range position, modelled by `List.get?`. -/
def gtk_tim2_sort_model_get_item (s : GtkTim2SortModel α) (position : Nat) :
    Option α :=
  match s.model with
  | none => none
  | some m =>
    if s.items.isEmpty then
      m.get? position
    else if s.items.length ≤ position then
      none
    else
      (s.items.get? position).map SortItem.item

/-- `gtk_tim2_sort_model_should_sort`. -/
def gtk_tim2_sort_model_should_sort (s : GtkTim2SortModel α) : Bool :=
  match s.sorter, s.model with
  | some srt, some _ => decide (srt.order ≠ SorterOrder.NONE)
  | _, _ => false

/-- `gtk_tim2_sort_model_create_items`: populate the buffer with one item
per source element, tagged with its source position. -/
def gtk_tim2_sort_model_create_items (s : GtkTim2SortModel α) :
    GtkTim2SortModel α :=
  if gtk_tim2_sort_model_should_sort s then
    match s.model with
    | some m => { s with items := m.enum.map (fun p => ⟨p.2, p.1⟩) }
    | none => s
  else
    s

/-- The loop of `gtk_tim2_sort_model_update_items`.  Arguments after the
buffer: current index `i`, count `valid` of items kept so far, the running
`start` and `end` bounds of the modified region.  `n` is the original
buffer length.  Returns the compacted buffer together with the final
`valid`, `start` and `end` values. -/
def update_items_go (position removed added n : Nat) :
    List (SortItem α) → Nat → Nat → Nat → Nat →
    List (SortItem α) × Nat × Nat × Nat
  | [], _, valid, start, e => ([], valid, start, e)
  | si :: rest, i, valid, start, e =>
    if position + removed ≤ si.position then
      let r := update_items_go position removed added n rest (i + 1) (valid + 1)
        start e
      (⟨si.item, si.position - removed + added⟩ :: r.1, r.2)
    else if position ≤ si.position then
      update_items_go position removed added n rest (i + 1) valid
        (min start valid) (n - i - 1)
    else
      let r := update_items_go position removed added n rest (i + 1) (valid + 1)
        start e
      (si :: r.1, r.2)

/-- `gtk_tim2_sort_model_update_items` on the buffer: drops the items whose
source position falls in the removed window, shifts the later ones, and
reports `(buffer, valid, unmodified_start, unmodified_end)`. -/
def gtk_tim2_sort_model_update_items (buf : List (SortItem α))
    (position removed added : Nat) : List (SortItem α) × Nat × Nat × Nat :=
  update_items_go position removed added buf.length buf 0 0 buf.length
    buf.length

/-- Length of the longest common prefix of two lists. -/
def agree_len [DecidableEq β] : List β → List β → Nat
  | a :: as, b :: bs => if a = b then agree_len as bs + 1 else 0
  | _, _ => 0

/-- Modelled from the spec: the changed range a drained engine run reports,
the smallest `(position, length)` range outside which the buffer is
unchanged (the spec's "smallest range of the buffer the step actually
touched", for the terminal full drain). -/
def drained_range [DecidableEq β] (old new : List β) : Nat × Nat :=
  let p := agree_len old new
  let q := agree_len (old.drop p).reverse (new.drop p).reverse
  let n := new.length - p - q
  (if n = 0 then 0 else p, n)

/-- Modelled from the spec: `gtk_tim2_sort_model_finish_sorting` drives the
run-merge engine (whose source is outside the studied core) to completion,
which performs an adaptive stable sort of the buffer under `sort_func`;
realized here as a stable insertion sort, observationally equal on the
claims' hypotheses.  Returns the sorted buffer and the reported changed
range. -/
def gtk_tim2_sort_model_finish_sorting [DecidableEq α]
    (cmp : α → α → Ordering) (buf : List (SortItem α)) :
    List (SortItem α) × Nat × Nat :=
  let sorted := List.insertionSort (sort_func cmp) buf
  let r := drained_range buf sorted
  (sorted, r.1, r.2)

/-- First loop of `gtk_tim2_sort_model_clear_items`: starting from index
`i`, the first index whose item's source position differs from it. -/
def clear_items_start : List (SortItem α) → Nat → Nat
  | [], i => i
  | si :: rest, i => if si.position = i then clear_items_start rest (i + 1) else i

/-- Second loop of `gtk_tim2_sort_model_clear_items`: scan `e` downwards
while `e > start` and the item at `e - 1` sits at its own source
position. -/
def clear_items_end (buf : List (SortItem α)) (start : Nat) : Nat → Nat
  | 0 => 0
  | e + 1 =>
    if start < e + 1 then
      match buf.get? e with
      | some si => if si.position = e then clear_items_end buf start e else e + 1
      | none => e + 1
    else
      e + 1

/-- `gtk_tim2_sort_model_clear_items`: stops any ongoing sort, computes the
notification range by trimming the maximal prefix and suffix of items that
sit at their own source position, and clears the buffer.  Returns the new
state and `(pos, n_items)`. -/
def gtk_tim2_sort_model_clear_items (s : GtkTim2SortModel α) :
    GtkTim2SortModel α × Nat × Nat :=
  let start := clear_items_start s.items 0
  let e := clear_items_end s.items start s.items.length
  let n := e - start
  ({ s with sort_cb := false, items := [] }, if n = 0 then 0 else start, n)

/-- `gtk_tim2_sort_model_items_changed_cb`: the handler for the source
model's change event `(position, removed, added)`; the `model` field holds
the already-mutated source.  Returns the new state and the emitted
notifications. -/
def gtk_tim2_sort_model_items_changed_cb [DecidableEq α] [Inhabited α]
    (s : GtkTim2SortModel α) (position removed added : Nat) :
    GtkTim2SortModel α × List Notif :=
  if removed = 0 ∧ added = 0 then
    (s, [])
  else if gtk_tim2_sort_model_should_sort s = false then
    (s, [(position, removed, added)])
  else
    let was_sorting := s.sort_cb
    let s1 : GtkTim2SortModel α := { s with sort_cb := false }
    let u := gtk_tim2_sort_model_update_items s.items position removed added
    let start := u.2.2.1
    let e := u.2.2.2
    if 0 < added then
      let src := s.model.getD []
      let appended := (List.range added).map
        (fun j => (⟨src.getD (position + j) default, position + j⟩ : SortItem α))
      let buf2 := u.1 ++ appended
      if s1.incremental then
        let s2 : GtkTim2SortModel α := { s1 with items := buf2, sort_cb := true }
        let n_items := buf2.length - start - 0
        (s2, [(start, n_items - added + removed, n_items)])
      else
        let f := gtk_tim2_sort_model_finish_sorting (sorter_compare s.sorter) buf2
        let start2 := min start f.2.1
        let s2 : GtkTim2SortModel α := { s1 with items := f.1, sort_cb := false }
        let n_items := f.1.length - start2 - 0
        (s2, [(start2, n_items - added + removed, n_items)])
    else
      let s2 : GtkTim2SortModel α :=
        { s1 with items := u.1, sort_cb := was_sorting && s1.incremental }
      let n_items := u.1.length - start - e
      (s2, [(start, n_items - added + removed, n_items)])

/-- `gtk_tim2_sort_model_sorter_changed_cb`: the handler for the sorter's
change event.  Returns the new state and the emitted notifications. -/
def gtk_tim2_sort_model_sorter_changed_cb [DecidableEq α]
    (s : GtkTim2SortModel α) : GtkTim2SortModel α × List Notif :=
  if sorter_get_order s.sorter = SorterOrder.NONE then
    let c := gtk_tim2_sort_model_clear_items s
    (c.1, if 0 < c.2.2 then [(c.2.1, c.2.2, c.2.2)] else [])
  else
    let s1 := if s.items.isEmpty then gtk_tim2_sort_model_create_items s else s
    let s2 : GtkTim2SortModel α := { s1 with sort_cb := false }
    if s2.incremental then
      ({ s2 with sort_cb := true }, [])
    else
      let f := gtk_tim2_sort_model_finish_sorting (sorter_compare s2.sorter)
        s2.items
      ({ s2 with items := f.1, sort_cb := false },
       if 0 < f.2.2 then [(f.2.1, f.2.2, f.2.2)] else [])

/-- `gtk_tim2_sort_model_set_incremental`.  Returns the new state and the
emitted notifications. -/
def gtk_tim2_sort_model_set_incremental [DecidableEq α]
    (s : GtkTim2SortModel α) (incremental : Bool) :
    GtkTim2SortModel α × List Notif :=
  if s.incremental = incremental then
    (s, [])
  else
    let s1 : GtkTim2SortModel α := { s with incremental := incremental }
    if !incremental && s1.sort_cb then
      let f := gtk_tim2_sort_model_finish_sorting (sorter_compare s1.sorter)
        s1.items
      ({ s1 with items := f.1, sort_cb := false },
       if 0 < f.2.2 then [(f.2.1, f.2.2, f.2.2)] else [])
    else
      (s1, [])

/-- `gtk_tim2_sort_model_set_model`.  Returns the new state and the emitted
notifications. -/
def gtk_tim2_sort_model_set_model [DecidableEq α]
    (s : GtkTim2SortModel α) (m : Option (List α)) :
    GtkTim2SortModel α × List Notif :=
  if s.model = m then
    (s, [])
  else
    let removed := gtk_tim2_sort_model_get_n_items s
    let s1 : GtkTim2SortModel α :=
      if s.model = none then s
      else { s with model := none, items := [], sort_cb := false }
    match m with
    | some mm =>
      let added := mm.length
      let s2 := gtk_tim2_sort_model_create_items { s1 with model := some mm }
      let s3 : GtkTim2SortModel α :=
        if s2.incremental then
          { s2 with sort_cb := true }
        else
          { s2 with
            items := (gtk_tim2_sort_model_finish_sorting
              (sorter_compare s2.sorter) s2.items).1,
            sort_cb := false }
      (s3, if 0 < removed ∨ 0 < added then [(0, removed, added)] else [])
    | none =>
      (s1, if 0 < removed then [(0, removed, 0)] else [])

/-- One merge range reported by the run-merge engine (`GtkTimSortRun`). -/
structure GtkTimSortRun : Type where
  base : Nat
  len : Nat
deriving DecidableEq, Repr

/-- `gtk_tim2_sort_model_sort_step` over a buffer of length `n`; the
internal merges the engine performs in the step are abstracted (modelled
from the spec) as the list of `(base, len)` ranges it reports, in order.
The driver widens `[start_change, end_change)` over every reported merge
with nonzero length, starting from the empty sentinel `(n, 0)`.  Returns
`(stepped_anything, out_position, out_n_items)`. -/
def gtk_tim2_sort_model_sort_step (n : Nat) (merges : List GtkTimSortRun) :
    Bool × Nat × Nat :=
  let w := merges.foldl
    (fun (acc : Nat × Nat) c =>
      if c.len ≠ 0 then (min acc.1 c.base, max acc.2 (c.base + c.len)) else acc)
    (n, 0)
  if w.1 < w.2 then
    (!merges.isEmpty, w.1, w.2 - w.1)
  else
    (!merges.isEmpty, 0, 0)

/-- `gtk_tim2_sort_model_sort_cb`: one idle-callback invocation, given the
merges the engine reported in this step.  Emits the step's changed range
when non-empty; when the engine reports no more work, stops sorting. -/
def gtk_tim2_sort_model_sort_cb (s : GtkTim2SortModel α)
    (merges : List GtkTimSortRun) : GtkTim2SortModel α × List Notif :=
  let r := gtk_tim2_sort_model_sort_step s.items.length merges
  if r.1 then
    (s, if 0 < r.2.2 then [(r.2.1, r.2.2, r.2.2)] else [])
  else
    ({ s with sort_cb := false }, [])

/-- Reading the whole visible range through the public interface. -/
def gtk_tim2_sort_model_get_all (s : GtkTim2SortModel α) : List (Option α) :=
  (List.range (gtk_tim2_sort_model_get_n_items s)).map
    (gtk_tim2_sort_model_get_item s)

/-- The buffer is sorted: comparing adjacent items never yields
`greater`. -/
def BufSorted (cmp : α → α → Ordering) (buf : List (SortItem α)) : Prop :=
  ∀ i (h : i + 1 < buf.length),
    cmp (buf.get ⟨i, Nat.lt_of_succ_lt h⟩).item (buf.get ⟨i + 1, h⟩).item ≠
      Ordering.gt

/-! ### Helper lemmas -/

theorem update_items_go_fst (position removed added n : Nat)
    (l : List (SortItem α)) (i valid start e : Nat) :
    (update_items_go position removed added n l i valid start e).1 =
      (l.filter (fun si => decide (si.position < position) ||
        decide (position + removed ≤ si.position))).map
        (fun si => if position + removed ≤ si.position then
          ⟨si.item, si.position - removed + added⟩ else si) := by
  induction l generalizing i valid start e with
  | nil => rfl
  | cons si rest ih =>
    by_cases h1 : position + removed ≤ si.position
    · simp [update_items_go, h1, ih, List.filter_cons]
    · by_cases h2 : position ≤ si.position
      · have h3 : ¬ si.position < position := by omega
        simp [update_items_go, h1, h2, ih, List.filter_cons, h3]
      · have h3 : si.position < position := by omega
        simp [update_items_go, h1, h2, ih, List.filter_cons, h3]

theorem update_items_go_valid (position removed added n : Nat)
    (l : List (SortItem α)) (i valid start e : Nat) :
    (update_items_go position removed added n l i valid start e).2.1 =
      valid + (update_items_go position removed added n l i valid start e).1.length := by
  induction l generalizing i valid start e with
  | nil => rfl
  | cons si rest ih =>
    by_cases h1 : position + removed ≤ si.position
    · simp only [update_items_go, if_pos h1, List.length_cons]
      rw [ih]
      omega
    · by_cases h2 : position ≤ si.position
      · simp only [update_items_go, if_neg h1, if_pos h2]
        exact ih ..
      · simp only [update_items_go, if_neg h1, if_neg h2, List.length_cons]
        rw [ih]
        omega

theorem countP_range_between (p q n : Nat) :
    (List.range n).countP (fun x => decide (p ≤ x) && decide (x < q)) =
      min q n - min p n := by
  induction n with
  | zero => simp
  | succ n ih =>
    rw [List.range_succ, List.countP_append, ih]
    by_cases h1 : p ≤ n <;> by_cases h2 : n < q <;>
      simp [List.countP_cons, h1, h2] <;> omega

theorem countP_range_keep (p q n : Nat) (hpq : p ≤ q) :
    (List.range n).countP (fun x => decide (x < p) || decide (q ≤ x)) =
      min p n + (n - min q n) := by
  induction n with
  | zero => simp
  | succ n ih =>
    rw [List.range_succ, List.countP_append, ih]
    by_cases h1 : n < p <;> by_cases h2 : q ≤ n <;>
      simp [List.countP_cons, h1, h2] <;> omega

theorem update_items_length (buf : List (SortItem α))
    (position removed added : Nat)
    (hperm : (buf.map SortItem.position).Perm (List.range buf.length))
    (hwin : position + removed ≤ buf.length) :
    (gtk_tim2_sort_model_update_items buf position removed added).1.length =
      buf.length - removed := by
  rw [gtk_tim2_sort_model_update_items, update_items_go_fst, List.length_map,
    ← List.countP_eq_length_filter]
  have hmap : buf.countP (fun si => decide (si.position < position) ||
      decide (position + removed ≤ si.position)) =
      (buf.map SortItem.position).countP (fun x => decide (x < position) ||
        decide (position + removed ≤ x)) := by
    rw [List.countP_map]
    rfl
  rw [hmap, hperm.countP_eq, countP_range_keep _ _ _ (by omega)]
  omega

/-! ### Claim theorems -/

/-- C2: the mutation translator, in one pass over the current buffer, shifts
the `position` of every item with `position ≥ position₀ + removed` by
`added - removed`, drops every item with `position` in
`[position₀, position₀ + removed)` and compacts the buffer, preserving the
relative order of the remaining items: the result is exactly the original
buffer filtered to the surviving items, in order, with the shift applied. -/
theorem update_items_filter_map_spec (buf : List (SortItem α))
    (position removed added : Nat) :
    (gtk_tim2_sort_model_update_items buf position removed added).1 =
      (buf.filter (fun si => decide (si.position < position) ||
        decide (position + removed ≤ si.position))).map
        (fun si => if position + removed ≤ si.position then
          ⟨si.item, si.position - removed + added⟩ else si) :=
  update_items_go_fst position removed added buf.length buf 0 0 buf.length
    buf.length

/-- C6: a source change event with `removed = 0` and `added = 0` is a
complete no-op: the handler returns the state unchanged and emits no
notification. -/
theorem items_changed_noop [DecidableEq α] [Inhabited α]
    (s : GtkTim2SortModel α) (position : Nat) :
    gtk_tim2_sort_model_items_changed_cb s position 0 0 = (s, []) := by
  simp [gtk_tim2_sort_model_items_changed_cb]

/-- C10: with no source model attached, the public sequence interface is
total and empty: `get_n_items` is `0` and `get_item` is `none` at every
position. -/
theorem no_model_empty_interface (s : GtkTim2SortModel α)
    (hm : s.model = none) :
    gtk_tim2_sort_model_get_n_items s = 0 ∧
      ∀ position, gtk_tim2_sort_model_get_item s position = none := by
  constructor
  · rw [gtk_tim2_sort_model_get_n_items, hm]
  · intro position
    rw [gtk_tim2_sort_model_get_item, hm]

/-- Witness for `no_model_empty_interface` at a concrete empty state. -/
theorem no_model_empty_interface_witness :
    (GtkTim2SortModel.mk (α := Nat) none none false false []).model = none ∧
      (gtk_tim2_sort_model_get_n_items
        (GtkTim2SortModel.mk (α := Nat) none none false false []) = 0 ∧
       ∀ position, gtk_tim2_sort_model_get_item
        (GtkTim2SortModel.mk (α := Nat) none none false false []) position =
          none) :=
  ⟨rfl, no_model_empty_interface _ rfl⟩

/-- C7: with a source model attached, `get_item` never faults: in
pass-through (empty-buffer) mode it delegates to the source, on a
non-empty buffer an out-of-range position yields `none` and an in-range
position yields the buffer item at that position. -/
theorem get_item_total_spec (s : GtkTim2SortModel α) (m : List α)
    (pos : Nat) (hm : s.model = some m) :
    (s.items = [] → gtk_tim2_sort_model_get_item s pos = m.get? pos) ∧
    (s.items ≠ [] → s.items.length ≤ pos →
      gtk_tim2_sort_model_get_item s pos = none) ∧
    (s.items ≠ [] → ∀ (h : pos < s.items.length),
      gtk_tim2_sort_model_get_item s pos =
        some (s.items.get ⟨pos, h⟩).item) := by
  refine ⟨fun he => ?_, fun hne hout => ?_, fun hne h => ?_⟩
  · simp [gtk_tim2_sort_model_get_item, hm, he]
  · simp [gtk_tim2_sort_model_get_item, hm, List.isEmpty_iff, hne, hout]
  · have hlt : ¬ s.items.length ≤ pos := by omega
    simp [gtk_tim2_sort_model_get_item, hm, List.isEmpty_iff, hne, hlt,
      List.getElem?_eq_getElem h]

/-- Witness for `get_item_total_spec`: a concrete two-item buffer, checking
the in-range, out-of-range and (on a second state) pass-through cases. -/
theorem get_item_total_spec_witness :
    (GtkTim2SortModel.mk (α := Nat) (some [7, 9]) none false false
        [⟨9, 1⟩, ⟨7, 0⟩]).model = some [7, 9] ∧
    ((GtkTim2SortModel.mk (α := Nat) (some [7, 9]) none false false
        [⟨9, 1⟩, ⟨7, 0⟩]).items = [] →
      gtk_tim2_sort_model_get_item (GtkTim2SortModel.mk (α := Nat)
        (some [7, 9]) none false false [⟨9, 1⟩, ⟨7, 0⟩]) 2 = [7, 9].get? 2) ∧
    ((GtkTim2SortModel.mk (α := Nat) (some [7, 9]) none false false
        [⟨9, 1⟩, ⟨7, 0⟩]).items ≠ [] →
      (GtkTim2SortModel.mk (α := Nat) (some [7, 9]) none false false
        [⟨9, 1⟩, ⟨7, 0⟩]).items.length ≤ 2 →
      gtk_tim2_sort_model_get_item (GtkTim2SortModel.mk (α := Nat)
        (some [7, 9]) none false false [⟨9, 1⟩, ⟨7, 0⟩]) 2 = none) ∧
    ((GtkTim2SortModel.mk (α := Nat) (some [7, 9]) none false false
        [⟨9, 1⟩, ⟨7, 0⟩]).items ≠ [] →
      ∀ (h : 2 < (GtkTim2SortModel.mk (α := Nat) (some [7, 9]) none false
        false [⟨9, 1⟩, ⟨7, 0⟩]).items.length),
      gtk_tim2_sort_model_get_item (GtkTim2SortModel.mk (α := Nat)
        (some [7, 9]) none false false [⟨9, 1⟩, ⟨7, 0⟩]) 2 =
        some ((GtkTim2SortModel.mk (α := Nat) (some [7, 9]) none false false
          [⟨9, 1⟩, ⟨7, 0⟩]).items.get ⟨2, h⟩).item) :=
  ⟨rfl, get_item_total_spec _ [7, 9] 2 rfl⟩

/-- C9: under invariant I1 (the buffer's `position` fields are exactly the
source indices `0 .. n-1`) and a removal window inside the source bounds,
the one-pass update drops exactly `removed` items: the loop's final `valid`
count equals `n_items - removed` (the assertion in the C routine holds and
its failure branch is unreachable), the compacted buffer has that length,
and no subtraction in the position bookkeeping underflows (`removed ≤
n_items`, and every shifted item had `position ≥ removed`). -/
theorem update_items_drops_exactly_removed (buf : List (SortItem α))
    (position removed added : Nat)
    (hperm : (buf.map SortItem.position).Perm (List.range buf.length))
    (hwin : position + removed ≤ buf.length) :
    (gtk_tim2_sort_model_update_items buf position removed added).2.1 =
        buf.length - removed ∧
    (gtk_tim2_sort_model_update_items buf position removed added).1.length =
        buf.length - removed ∧
    removed ≤ buf.length ∧
    ∀ si ∈ buf, position + removed ≤ si.position →
      removed ≤ si.position := by
  have hlen := update_items_length buf position removed added hperm hwin
  refine ⟨?_, hlen, by omega, fun si _ hsi => by omega⟩
  have hv := update_items_go_valid position removed added buf.length buf 0 0
    buf.length buf.length
  rw [gtk_tim2_sort_model_update_items] at hlen ⊢
  omega

/-- Witness for `update_items_drops_exactly_removed` on the buffer of a
sorted three-element source, removing the middle source element. -/
theorem update_items_drops_exactly_removed_witness :
    (([⟨5, 2⟩, ⟨7, 0⟩, ⟨9, 1⟩] : List (SortItem Nat)).map
        SortItem.position).Perm (List.range 3) ∧
    1 + 1 ≤ ([⟨5, 2⟩, ⟨7, 0⟩, ⟨9, 1⟩] : List (SortItem Nat)).length ∧
    (gtk_tim2_sort_model_update_items
        ([⟨5, 2⟩, ⟨7, 0⟩, ⟨9, 1⟩] : List (SortItem Nat)) 1 1 0).2.1 = 3 - 1 :=
  ⟨by decide, by decide,
    (update_items_drops_exactly_removed [⟨5, 2⟩, ⟨7, 0⟩, ⟨9, 1⟩] 1 1 0
      (by decide) (by decide)).1⟩

/-- C3: the reported public length always equals the source model's length
(pass-through and sorted mode alike), and — under invariant I1 for the
pre-edit buffer and a well-formed edit — the mutation handler (update plus
append of the added items, then any resort) leaves the buffer with exactly
one item per current source element: its length equals the new source
length. -/
theorem length_conservation [DecidableEq α] [Inhabited α] :
    (∀ (s : GtkTim2SortModel α) (m : List α), s.model = some m →
      gtk_tim2_sort_model_get_n_items s = m.length) ∧
    (∀ (s : GtkTim2SortModel α) (m : List α) (position removed added : Nat),
      s.model = some m →
      gtk_tim2_sort_model_should_sort s = true →
      (s.items.map SortItem.position).Perm (List.range s.items.length) →
      position + removed ≤ s.items.length →
      m.length + removed = s.items.length + added →
      (gtk_tim2_sort_model_items_changed_cb s position removed
        added).1.items.length = m.length) := by
  constructor
  · intro s m hm
    rw [gtk_tim2_sort_model_get_n_items, hm]
  · intro s m position removed added hm hss hperm hwin harith
    have hulen := update_items_length s.items position removed added hperm hwin
    rw [gtk_tim2_sort_model_items_changed_cb]
    by_cases h0 : removed = 0 ∧ added = 0
    · rw [if_pos h0]
      show s.items.length = m.length
      omega
    · rw [if_neg h0, if_neg (by simp [hss])]
      by_cases ha : 0 < added
      · rw [if_pos ha]
        by_cases hinc : s.incremental = true
        · simp only [hinc, if_pos]
          simp only [List.length_append, List.length_map, List.length_range]
          omega
        · simp only [Bool.not_eq_true] at hinc
          simp only [hinc, Bool.false_eq_true, if_false,
            gtk_tim2_sort_model_finish_sorting, List.length_insertionSort,
            List.length_append, List.length_map, List.length_range]
          omega
      · rw [if_neg ha]
        show (gtk_tim2_sort_model_update_items s.items position removed
          added).1.length = m.length
        omega

/-- Witness for `length_conservation`: removing one element of a sorted
two-element source. -/
theorem length_conservation_witness :
    ((GtkTim2SortModel.mk (some [9]) (some ⟨compare, SorterOrder.TOTAL⟩)
        false false [⟨7, 0⟩, ⟨9, 1⟩]).model = some [9] ∧
     gtk_tim2_sort_model_should_sort (GtkTim2SortModel.mk (some [9])
        (some ⟨compare, SorterOrder.TOTAL⟩) false false
        [⟨7, 0⟩, ⟨9, 1⟩]) = true) ∧
    (gtk_tim2_sort_model_items_changed_cb (GtkTim2SortModel.mk (some [9])
        (some ⟨compare, SorterOrder.TOTAL⟩) false false
        [⟨7, 0⟩, ⟨9, 1⟩]) 0 1 0).1.items.length = 1 :=
  ⟨⟨rfl, rfl⟩,
    (length_conservation.2) _ [9] 0 1 0 rfl rfl (by decide) (by decide)
      (by decide)⟩

theorem bufSorted_of_pairwise (cmp : α → α → Ordering)
    (buf : List (SortItem α))
    (h : List.Pairwise (sort_func cmp) buf) : BufSorted cmp buf := by
  intro i hi
  exact List.chain'_iff_get.mp h.chain' i (by omega)

theorem pairwise_of_bufSorted (cmp : α → α → Ordering)
    (htr : ∀ a b c : α, cmp a b ≠ Ordering.gt → cmp b c ≠ Ordering.gt →
      cmp a c ≠ Ordering.gt)
    (buf : List (SortItem α)) (h : BufSorted cmp buf) :
    List.Pairwise (sort_func cmp) buf := by
  haveI : IsTrans (SortItem α) (sort_func cmp) :=
    ⟨fun x y z hxy hyz => htr x.item y.item z.item hxy hyz⟩
  rw [← List.chain'_iff_pairwise, List.chain'_iff_get]
  intro i hi
  exact h i (by omega)

theorem pairwise_insertionSort (cmp : α → α → Ordering)
    (htr : ∀ a b c : α, cmp a b ≠ Ordering.gt → cmp b c ≠ Ordering.gt →
      cmp a c ≠ Ordering.gt)
    (hto : ∀ a b : α, cmp a b ≠ Ordering.gt ∨ cmp b a ≠ Ordering.gt)
    (buf : List (SortItem α)) :
    List.Pairwise (sort_func cmp) (List.insertionSort (sort_func cmp) buf) := by
  haveI : IsTotal (SortItem α) (sort_func cmp) := ⟨fun x y => hto x.item y.item⟩
  haveI : IsTrans (SortItem α) (sort_func cmp) :=
    ⟨fun x y z hxy hyz => htr x.item y.item z.item hxy hyz⟩
  exact List.sorted_insertionSort (sort_func cmp) buf

theorem pairwise_update (cmp : α → α → Ordering)
    (buf : List (SortItem α)) (position removed added : Nat)
    (h : List.Pairwise (sort_func cmp) buf) :
    List.Pairwise (sort_func cmp)
      (gtk_tim2_sort_model_update_items buf position removed added).1 := by
  rw [gtk_tim2_sort_model_update_items, update_items_go_fst, List.pairwise_map]
  have hf : List.Pairwise (sort_func cmp)
      (buf.filter (fun si => decide (si.position < position) ||
        decide (position + removed ≤ si.position))) :=
    h.sublist (List.filter_sublist _)
  refine hf.imp ?_
  intro x y hxy
  show cmp (if position + removed ≤ x.position then
      (⟨x.item, x.position - removed + added⟩ : SortItem α) else x).item
    (if position + removed ≤ y.position then
      (⟨y.item, y.position - removed + added⟩ : SortItem α) else y).item ≠
      Ordering.gt
  split <;> split <;> exact hxy

theorem create_items_incremental (s : GtkTim2SortModel α) :
    (gtk_tim2_sort_model_create_items s).incremental = s.incremental := by
  rw [gtk_tim2_sort_model_create_items]
  split
  · split <;> rfl
  · rfl

theorem create_items_sorter (s : GtkTim2SortModel α) :
    (gtk_tim2_sort_model_create_items s).sorter = s.sorter := by
  rw [gtk_tim2_sort_model_create_items]
  split
  · split <;> rfl
  · rfl

theorem items_changed_sync_pairwise [DecidableEq α] [Inhabited α]
    (s : GtkTim2SortModel α) (position removed added : Nat)
    (htr : ∀ a b c : α, sorter_compare s.sorter a b ≠ Ordering.gt →
      sorter_compare s.sorter b c ≠ Ordering.gt →
      sorter_compare s.sorter a c ≠ Ordering.gt)
    (hto : ∀ a b : α, sorter_compare s.sorter a b ≠ Ordering.gt ∨
      sorter_compare s.sorter b a ≠ Ordering.gt)
    (hsync : s.incremental = false)
    (hsorted : List.Pairwise (sort_func (sorter_compare s.sorter)) s.items) :
    List.Pairwise (sort_func (sorter_compare s.sorter))
      (gtk_tim2_sort_model_items_changed_cb s position removed
        added).1.items := by
  rw [gtk_tim2_sort_model_items_changed_cb]
  by_cases h0 : removed = 0 ∧ added = 0
  · rw [if_pos h0]
    exact hsorted
  · rw [if_neg h0]
    by_cases hss : gtk_tim2_sort_model_should_sort s = false
    · rw [if_pos hss]
      exact hsorted
    · rw [if_neg hss]
      by_cases ha : 0 < added
      · rw [if_pos ha]
        rw [if_neg (by simp [hsync])]
        exact pairwise_insertionSort _ htr hto _
      · rw [if_neg ha]
        exact pairwise_update _ _ _ _ _ hsorted

theorem sorter_changed_sync_pairwise [DecidableEq α]
    (s : GtkTim2SortModel α)
    (htr : ∀ a b c : α, sorter_compare s.sorter a b ≠ Ordering.gt →
      sorter_compare s.sorter b c ≠ Ordering.gt →
      sorter_compare s.sorter a c ≠ Ordering.gt)
    (hto : ∀ a b : α, sorter_compare s.sorter a b ≠ Ordering.gt ∨
      sorter_compare s.sorter b a ≠ Ordering.gt)
    (hsync : s.incremental = false) :
    List.Pairwise (sort_func (sorter_compare s.sorter))
      (gtk_tim2_sort_model_sorter_changed_cb s).1.items := by
  rw [gtk_tim2_sort_model_sorter_changed_cb]
  by_cases hord : sorter_get_order s.sorter = SorterOrder.NONE
  · rw [if_pos hord]
    exact List.Pairwise.nil
  · rw [if_neg hord]
    by_cases hemp : s.items.isEmpty
    · rw [if_pos hemp]
      rw [if_neg (by simp [create_items_incremental, hsync])]
      have hs := create_items_sorter s
      rw [hs]
      exact pairwise_insertionSort _ htr hto _
    · rw [if_neg hemp]
      rw [if_neg (by simp [hsync])]
      exact pairwise_insertionSort _ htr hto _

theorem set_model_sync_pairwise [DecidableEq α]
    (s : GtkTim2SortModel α) (m : Option (List α))
    (htr : ∀ a b c : α, sorter_compare s.sorter a b ≠ Ordering.gt →
      sorter_compare s.sorter b c ≠ Ordering.gt →
      sorter_compare s.sorter a c ≠ Ordering.gt)
    (hto : ∀ a b : α, sorter_compare s.sorter a b ≠ Ordering.gt ∨
      sorter_compare s.sorter b a ≠ Ordering.gt)
    (hsync : s.incremental = false) (hne : s.model ≠ m) :
    List.Pairwise (sort_func (sorter_compare s.sorter))
      (gtk_tim2_sort_model_set_model s m).1.items := by
  rw [gtk_tim2_sort_model_set_model, if_neg hne]
  cases m with
  | none =>
    rw [if_neg hne]
    exact List.Pairwise.nil
  | some mm =>
    by_cases hm0 : s.model = none
    · rw [if_pos hm0]
      simp only [gtk_tim2_sort_model_finish_sorting, create_items_incremental,
        create_items_sorter, hsync, Bool.false_eq_true, if_false]
      exact pairwise_insertionSort _ htr hto _
    · rw [if_neg hm0]
      simp only [gtk_tim2_sort_model_finish_sorting, create_items_incremental,
        create_items_sorter, hsync, Bool.false_eq_true, if_false]
      exact pairwise_insertionSort _ htr hto _

theorem nat_compare_le_trans (a b c : Nat) (h1 : compare a b ≠ Ordering.gt)
    (h2 : compare b c ≠ Ordering.gt) : compare a c ≠ Ordering.gt := by
  simp only [ne_eq, Nat.compare_eq_gt] at h1 h2 ⊢
  omega

theorem nat_compare_le_total (a b : Nat) :
    compare a b ≠ Ordering.gt ∨ compare b a ≠ Ordering.gt := by
  simp only [ne_eq, Nat.compare_eq_gt]
  omega

/-- C1: in synchronous mode, with a transitive and total comparator,
population (`set_model`), any source mutation (`items_changed_cb`, from a
sorted buffer), and any sorter change (`sorter_changed_cb`) all leave the
items buffer fully sorted: comparing adjacent buffer items never yields
`greater`.  Concretely, populating from source `[5,3,1,4,2]` with the
ascending numeric comparator and reading the full range through `get`
yields `[1,2,3,4,5]`. -/
theorem sync_operations_leave_buffer_sorted [DecidableEq α] [Inhabited α]
    (srt : Sorter α)
    (htr : ∀ a b c : α, srt.compare a b ≠ Ordering.gt →
      srt.compare b c ≠ Ordering.gt → srt.compare a c ≠ Ordering.gt)
    (hto : ∀ a b : α, srt.compare a b ≠ Ordering.gt ∨
      srt.compare b a ≠ Ordering.gt)
    (hord : srt.order ≠ SorterOrder.NONE) :
    (∀ (s : GtkTim2SortModel α) (m : List α), s.sorter = some srt →
      s.incremental = false → s.model ≠ some m →
      BufSorted srt.compare
        (gtk_tim2_sort_model_set_model s (some m)).1.items) ∧
    (∀ (s : GtkTim2SortModel α) (position removed added : Nat),
      s.sorter = some srt → s.incremental = false →
      BufSorted srt.compare s.items →
      BufSorted srt.compare
        (gtk_tim2_sort_model_items_changed_cb s position removed
          added).1.items) ∧
    (∀ (s : GtkTim2SortModel α), s.sorter = some srt →
      s.incremental = false →
      BufSorted srt.compare
        (gtk_tim2_sort_model_sorter_changed_cb s).1.items) ∧
    gtk_tim2_sort_model_get_all
      (gtk_tim2_sort_model_set_model
        (GtkTim2SortModel.mk (α := Nat) none
          (some ⟨compare, SorterOrder.TOTAL⟩) false false [])
        (some [5, 3, 1, 4, 2])).1 =
      [some 1, some 2, some 3, some 4, some 5] := by
  refine ⟨?_, ?_, ?_, by decide⟩
  · intro s m hs hsync hne
    have h := set_model_sync_pairwise s (some m)
      (by rw [hs]; exact htr) (by rw [hs]; exact hto) hsync hne
    rw [hs] at h
    exact bufSorted_of_pairwise _ _ h
  · intro s position removed added hs hsync hsorted
    have hp : List.Pairwise (sort_func (sorter_compare s.sorter)) s.items := by
      rw [hs]
      exact pairwise_of_bufSorted _ htr _ hsorted
    have h := items_changed_sync_pairwise s position removed added
      (by rw [hs]; exact htr) (by rw [hs]; exact hto) hsync hp
    rw [hs] at h
    exact bufSorted_of_pairwise _ _ h
  · intro s hs hsync
    have h := sorter_changed_sync_pairwise s
      (by rw [hs]; exact htr) (by rw [hs]; exact hto) hsync
    rw [hs] at h
    exact bufSorted_of_pairwise _ _ h

/-- Witness for `sync_operations_leave_buffer_sorted`: the ascending
numeric comparator is transitive and total, and a sorter change on a
concrete unsorted two-item buffer leaves it sorted. -/
theorem sync_operations_leave_buffer_sorted_witness :
    (∀ a b c : Nat, compare a b ≠ Ordering.gt →
      compare b c ≠ Ordering.gt → compare a c ≠ Ordering.gt) ∧
    (∀ a b : Nat, compare a b ≠ Ordering.gt ∨ compare b a ≠ Ordering.gt) ∧
    (Sorter.mk (α := Nat) compare SorterOrder.TOTAL).order ≠
      SorterOrder.NONE ∧
    BufSorted (Sorter.mk (α := Nat) compare SorterOrder.TOTAL).compare
      (gtk_tim2_sort_model_sorter_changed_cb
        (GtkTim2SortModel.mk (some [2, 1])
          (some ⟨compare, SorterOrder.TOTAL⟩) false false
          [⟨2, 0⟩, ⟨1, 1⟩])).1.items :=
  ⟨nat_compare_le_trans, nat_compare_le_total, by decide,
    (sync_operations_leave_buffer_sorted ⟨compare, SorterOrder.TOTAL⟩
      nat_compare_le_trans nat_compare_le_total (by decide)).2.2.1
      (GtkTim2SortModel.mk (some [2, 1]) (some ⟨compare, SorterOrder.TOTAL⟩)
        false false [⟨2, 0⟩, ⟨1, 1⟩]) rfl rfl⟩

/-- C5: switching the incremental flag from `true` to `false` while an
incremental sort run is in flight (`sort_cb` pending) drains the run to
completion before returning: afterwards no sort callback is pending and
the buffer is fully sorted, so a `get` over the full range observes the
final sorted order. -/
theorem set_incremental_false_drains [DecidableEq α]
    (s : GtkTim2SortModel α)
    (htr : ∀ a b c : α, sorter_compare s.sorter a b ≠ Ordering.gt →
      sorter_compare s.sorter b c ≠ Ordering.gt →
      sorter_compare s.sorter a c ≠ Ordering.gt)
    (hto : ∀ a b : α, sorter_compare s.sorter a b ≠ Ordering.gt ∨
      sorter_compare s.sorter b a ≠ Ordering.gt)
    (hinc : s.incremental = true) (hcb : s.sort_cb = true) :
    (gtk_tim2_sort_model_set_incremental s false).1.sort_cb = false ∧
    BufSorted (sorter_compare s.sorter)
      (gtk_tim2_sort_model_set_incremental s false).1.items := by
  rw [gtk_tim2_sort_model_set_incremental, if_neg (by simp [hinc])]
  rw [if_pos (by simp [hcb])]
  exact ⟨rfl, bufSorted_of_pairwise _ _ (pairwise_insertionSort _ htr hto _)⟩

/-- Witness for `set_incremental_false_drains`: a concrete in-flight
incremental state over source `[2, 1]`. -/
theorem set_incremental_false_drains_witness :
    ((GtkTim2SortModel.mk (α := Nat) (some [2, 1])
        (some ⟨compare, SorterOrder.TOTAL⟩) true true
        [⟨2, 0⟩, ⟨1, 1⟩]).incremental = true ∧
     (GtkTim2SortModel.mk (α := Nat) (some [2, 1])
        (some ⟨compare, SorterOrder.TOTAL⟩) true true
        [⟨2, 0⟩, ⟨1, 1⟩]).sort_cb = true) ∧
    ((gtk_tim2_sort_model_set_incremental (GtkTim2SortModel.mk (α := Nat)
        (some [2, 1]) (some ⟨compare, SorterOrder.TOTAL⟩) true true
        [⟨2, 0⟩, ⟨1, 1⟩]) false).1.sort_cb = false ∧
     BufSorted (sorter_compare (GtkTim2SortModel.mk (α := Nat) (some [2, 1])
        (some ⟨compare, SorterOrder.TOTAL⟩) true true
        [⟨2, 0⟩, ⟨1, 1⟩]).sorter)
       (gtk_tim2_sort_model_set_incremental (GtkTim2SortModel.mk (α := Nat)
        (some [2, 1]) (some ⟨compare, SorterOrder.TOTAL⟩) true true
        [⟨2, 0⟩, ⟨1, 1⟩]) false).1.items) :=
  ⟨⟨rfl, rfl⟩,
    set_incremental_false_drains _
      (fun a b c h1 h2 => nat_compare_le_trans a b c h1 h2)
      (fun a b => nat_compare_le_total a b) rfl rfl⟩

theorem clear_items_end_of_start_ge (buf : List (SortItem α))
    (start e : Nat) (h : e ≤ start) : clear_items_end buf start e = e := by
  cases e with
  | zero => rfl
  | succ e => rw [clear_items_end, if_neg (by omega)]

theorem clear_items_end_spec (buf : List (SortItem α)) (start e : Nat) :
    (start ≤ e → start ≤ clear_items_end buf start e) ∧
    clear_items_end buf start e ≤ e ∧
    (∀ j (hj : j < buf.length), clear_items_end buf start e ≤ j → j < e →
      (buf.get ⟨j, hj⟩).position = j) := by
  induction e with
  | zero => exact ⟨fun h => by omega, le_refl _, fun j hj h1 h2 => by omega⟩
  | succ e ih =>
    rw [clear_items_end]
    by_cases hs : start < e + 1
    · rw [if_pos hs]
      cases hg : buf.get? e with
      | none =>
        simp only []
        exact ⟨fun _ => by omega, le_refl _, fun j hj h1 h2 => by omega⟩
      | some si =>
        simp only []
        by_cases hp : si.position = e
        · rw [if_pos hp]
          obtain ⟨ih1, ih2, ih3⟩ := ih
          refine ⟨fun _ => ih1 (by omega), by omega, fun j hj h1 h2 => ?_⟩
          by_cases hje : j < e
          · exact ih3 j hj h1 hje
          · have hje' : j = e := by omega
            subst hje'
            have hg' := List.get?_eq_get hj
            rw [hg] at hg'
            have : si = buf.get ⟨j, hj⟩ := by
              injection hg'
            rw [← this]
            exact hp
        · rw [if_neg hp]
          exact ⟨fun _ => by omega, le_refl _, fun j hj h1 h2 => by omega⟩
    · rw [if_neg hs]
      exact ⟨fun h => by omega, le_refl _, fun j hj h1 h2 => by omega⟩

theorem clear_items_start_spec (buf : List (SortItem α)) (i : Nat) :
    i ≤ clear_items_start buf i ∧
    clear_items_start buf i ≤ i + buf.length ∧
    (∀ j (hj : j < buf.length), (buf.get ⟨j, hj⟩).position ≠ i + j →
      clear_items_start buf i ≤ i + j) ∧
    ((∀ j (hj : j < buf.length), (buf.get ⟨j, hj⟩).position = i + j) →
      clear_items_start buf i = i + buf.length) := by
  induction buf generalizing i with
  | nil =>
    exact ⟨le_refl _, by simp [clear_items_start],
      fun j hj => by simp at hj, fun _ => by simp [clear_items_start]⟩
  | cons si rest ih =>
    by_cases h : si.position = i
    · rw [clear_items_start, if_pos h]
      obtain ⟨ih1, ih2, ih3, ih4⟩ := ih (i + 1)
      refine ⟨by omega, by simp only [List.length_cons]; omega, ?_, ?_⟩
      · intro j hj hne
        cases j with
        | zero =>
          exact absurd h (by simpa using hne)
        | succ j' =>
          have hj' : j' < rest.length := by
            simpa using hj
          have := ih3 j' hj' (by
            simpa [Nat.add_comm, Nat.add_assoc, Nat.add_left_comm] using hne)
          omega
      · intro hall
        have := ih4 (fun j hj => by
          have := hall (j + 1) (by simpa using hj)
          simpa [Nat.add_comm, Nat.add_assoc, Nat.add_left_comm] using this)
        simp only [List.length_cons]
        omega
    · rw [clear_items_start, if_neg h]
      refine ⟨le_refl _, by omega, fun j hj hne => by omega, ?_⟩
      intro hall
      exact absurd (by simpa using hall 0 (by simp)) h

/-- C4 counterexample: on a two-item buffer whose items sit at their own
source positions, a sorter change to `order == NONE` clears the buffer but
emits NO notification at all, although the buffer length is 2 > 1 — so no
full-range change notification spanning all elements is emitted. -/
theorem sorter_none_notification_not_full_range :
    sorter_get_order (GtkTim2SortModel.mk (α := Nat) (some [10, 20])
      (some ⟨compare, SorterOrder.NONE⟩) false false
      [⟨10, 0⟩, ⟨20, 1⟩]).sorter = SorterOrder.NONE ∧
    (GtkTim2SortModel.mk (α := Nat) (some [10, 20])
      (some ⟨compare, SorterOrder.NONE⟩) false false
      [⟨10, 0⟩, ⟨20, 1⟩]).items.length = 2 ∧
    (gtk_tim2_sort_model_sorter_changed_cb (GtkTim2SortModel.mk (α := Nat)
      (some [10, 20]) (some ⟨compare, SorterOrder.NONE⟩) false false
      [⟨10, 0⟩, ⟨20, 1⟩])).2 = [] := by
  refine ⟨rfl, rfl, ?_⟩
  decide

theorem clear_items_start_break (buf : List (SortItem α)) :
    ∀ i, clear_items_start buf i < i + buf.length →
    ∃ si, buf.get? (clear_items_start buf i - i) = some si ∧
      si.position ≠ clear_items_start buf i := by
  induction buf with
  | nil =>
    intro i hi
    rw [clear_items_start] at hi
    simp only [List.length_nil] at hi
    omega
  | cons si rest ih =>
    intro i hi
    by_cases hsi : si.position = i
    · rw [clear_items_start, if_pos hsi] at hi ⊢
      have hge : i + 1 ≤ clear_items_start rest (i + 1) :=
        (clear_items_start_spec rest (i + 1)).1
      have hk : clear_items_start rest (i + 1) - i =
          (clear_items_start rest (i + 1) - (i + 1)) + 1 := by omega
      rw [hk, List.get?_cons_succ]
      exact ih (i + 1) (by simp only [List.length_cons] at hi; omega)
    · rw [clear_items_start, if_neg hsi]
      exact ⟨si, by rw [Nat.sub_self, List.get?_cons_zero], hsi⟩

theorem clear_items_end_break (buf : List (SortItem α)) (start : Nat) :
    ∀ e, e ≤ buf.length → start < clear_items_end buf start e →
    ∃ si, buf.get? (clear_items_end buf start e - 1) = some si ∧
      si.position ≠ clear_items_end buf start e - 1 := by
  intro e
  induction e with
  | zero =>
    intro he hlt
    rw [clear_items_end] at hlt
    omega
  | succ e ih =>
    intro he hlt
    rw [clear_items_end] at hlt ⊢
    by_cases hs : start < e + 1
    · rw [if_pos hs] at hlt ⊢
      cases hg : buf.get? e with
      | none =>
        have helt : e < buf.length := by omega
        rw [List.get?_eq_get helt] at hg
        exact absurd hg (by simp)
      | some si =>
        rw [hg] at hlt
        simp only [] at hlt ⊢
        by_cases hp : si.position = e
        · rw [if_pos hp] at hlt ⊢
          exact ih (by omega) hlt
        · rw [if_neg hp] at hlt ⊢
          rw [Nat.add_sub_cancel]
          exact ⟨si, hg, hp⟩
    · rw [if_neg hs] at hlt
      omega

/-- C4 (amended): when the sorter reports `order == NONE`, the buffer is
cleared to pass-through mode (and any pending sort callback is cancelled);
the emitted change notification does not span all elements but exactly the
trimmed range obtained by discarding the maximal prefix and suffix of
items whose source position equals their buffer index: every index at
which the item's source position differs from the index lies inside the
emitted range, and both the first index of the range and its last index
are such mismatched indices (so the range runs exactly from the first
mismatch through the last); no notification at all is emitted when every
item sits at its own source position (in particular for buffers of length
≤ 1 under I1). -/
theorem sorter_none_clears_with_trimmed_notification [DecidableEq α]
    (s : GtkTim2SortModel α)
    (hord : sorter_get_order s.sorter = SorterOrder.NONE) :
    (gtk_tim2_sort_model_sorter_changed_cb s).1.items = [] ∧
    (gtk_tim2_sort_model_sorter_changed_cb s).1.sort_cb = false ∧
    ((∀ j (hj : j < s.items.length), (s.items.get ⟨j, hj⟩).position = j) →
      (gtk_tim2_sort_model_sorter_changed_cb s).2 = []) ∧
    (∀ j (hj : j < s.items.length), (s.items.get ⟨j, hj⟩).position ≠ j →
      ∃ p n, (gtk_tim2_sort_model_sorter_changed_cb s).2 = [(p, n, n)] ∧
        (∀ k (hk : k < s.items.length), (s.items.get ⟨k, hk⟩).position ≠ k →
          p ≤ k ∧ k < p + n) ∧
        (∃ si, s.items.get? p = some si ∧ si.position ≠ p) ∧
        (∃ si, s.items.get? (p + n - 1) = some si ∧
          si.position ≠ p + n - 1)) := by
  obtain ⟨hs1, hs2, hs3, hs4⟩ := clear_items_start_spec s.items 0
  obtain ⟨he1, he2, he3⟩ := clear_items_end_spec s.items
    (clear_items_start s.items 0) s.items.length
  rw [gtk_tim2_sort_model_sorter_changed_cb, if_pos hord]
  refine ⟨rfl, rfl, ?_, ?_⟩
  · intro hall
    have hstart : clear_items_start s.items 0 = s.items.length := by
      have := hs4 (fun j hj => by simpa using hall j hj)
      omega
    have hend : clear_items_end s.items (clear_items_start s.items 0)
        s.items.length = s.items.length :=
      clear_items_end_of_start_ge _ _ _ (by omega)
    rw [hstart] at hend
    simp only [gtk_tim2_sort_model_clear_items, hstart, hend]
    simp
  · intro j hj hne
    have hstj : clear_items_start s.items 0 ≤ j := by
      have := hs3 j hj (by simpa using hne)
      omega
    have hjen : j < clear_items_end s.items (clear_items_start s.items 0)
        s.items.length := by
      by_contra hc
      exact hne (he3 j hj (by omega) hj)
    have hsten : clear_items_start s.items 0 ≤ clear_items_end s.items
        (clear_items_start s.items 0) s.items.length := by omega
    refine ⟨clear_items_start s.items 0,
      clear_items_end s.items (clear_items_start s.items 0) s.items.length -
        clear_items_start s.items 0, ?_, ?_, ?_, ?_⟩
    · simp only [gtk_tim2_sort_model_clear_items]
      rw [if_pos (by omega), if_neg (by omega)]
    · intro k hk hkne
      have h1 : clear_items_start s.items 0 ≤ k := by
        have := hs3 k hk (by simpa using hkne)
        omega
      have h2 : k < clear_items_end s.items (clear_items_start s.items 0)
          s.items.length := by
        by_contra hc
        exact hkne (he3 k hk (by omega) hk)
      omega
    · obtain ⟨si, hsig, hsine⟩ := clear_items_start_break s.items 0 (by omega)
      rw [Nat.sub_zero] at hsig
      exact ⟨si, hsig, hsine⟩
    · obtain ⟨si, hsig, hsine⟩ := clear_items_end_break s.items
        (clear_items_start s.items 0) s.items.length (le_refl _) (by omega)
      rw [show clear_items_start s.items 0 +
        (clear_items_end s.items (clear_items_start s.items 0)
          s.items.length - clear_items_start s.items 0) - 1 =
        clear_items_end s.items (clear_items_start s.items 0)
          s.items.length - 1 from by omega]
      exact ⟨si, hsig, hsine⟩

/-- Witness for `sorter_none_clears_with_trimmed_notification`: a two-item
buffer holding a mismatch at index 0. -/
theorem sorter_none_clears_with_trimmed_notification_witness :
    sorter_get_order (GtkTim2SortModel.mk (α := Nat) (some [20, 10])
      (some ⟨compare, SorterOrder.NONE⟩) false false
      [⟨10, 1⟩, ⟨20, 0⟩]).sorter = SorterOrder.NONE ∧
    (gtk_tim2_sort_model_sorter_changed_cb (GtkTim2SortModel.mk (α := Nat)
      (some [20, 10]) (some ⟨compare, SorterOrder.NONE⟩) false false
      [⟨10, 1⟩, ⟨20, 0⟩])).1.items = [] ∧
    ∃ p n, (gtk_tim2_sort_model_sorter_changed_cb
      (GtkTim2SortModel.mk (α := Nat) (some [20, 10])
        (some ⟨compare, SorterOrder.NONE⟩) false false
        [⟨10, 1⟩, ⟨20, 0⟩])).2 = [(p, n, n)] ∧
      (∀ k (hk : k < (GtkTim2SortModel.mk (α := Nat) (some [20, 10])
          (some ⟨compare, SorterOrder.NONE⟩) false false
          [⟨10, 1⟩, ⟨20, 0⟩]).items.length),
        ((GtkTim2SortModel.mk (α := Nat) (some [20, 10])
          (some ⟨compare, SorterOrder.NONE⟩) false false
          [⟨10, 1⟩, ⟨20, 0⟩]).items.get ⟨k, hk⟩).position ≠ k →
        p ≤ k ∧ k < p + n) ∧
      (∃ si, (GtkTim2SortModel.mk (α := Nat) (some [20, 10])
          (some ⟨compare, SorterOrder.NONE⟩) false false
          [⟨10, 1⟩, ⟨20, 0⟩]).items.get? p = some si ∧ si.position ≠ p) ∧
      (∃ si, (GtkTim2SortModel.mk (α := Nat) (some [20, 10])
          (some ⟨compare, SorterOrder.NONE⟩) false false
          [⟨10, 1⟩, ⟨20, 0⟩]).items.get? (p + n - 1) = some si ∧
        si.position ≠ p + n - 1) :=
  ⟨rfl,
    (sorter_none_clears_with_trimmed_notification
      (GtkTim2SortModel.mk (α := Nat) (some [20, 10])
        (some ⟨compare, SorterOrder.NONE⟩) false false
        [⟨10, 1⟩, ⟨20, 0⟩]) rfl).1,
    (sorter_none_clears_with_trimmed_notification
      (GtkTim2SortModel.mk (α := Nat) (some [20, 10])
        (some ⟨compare, SorterOrder.NONE⟩) false false
        [⟨10, 1⟩, ⟨20, 0⟩]) rfl).2.2.2 0 (by decide) (by decide)⟩

/-- The widening loop of `gtk_tim2_sort_model_sort_step` in recursive
form. -/
def widen_range (a : Nat × Nat) : List GtkTimSortRun → Nat × Nat
  | [] => a
  | c :: cs =>
    widen_range
      (if c.len ≠ 0 then (min a.1 c.base, max a.2 (c.base + c.len)) else a) cs

theorem foldl_eq_widen_range (merges : List GtkTimSortRun) (a : Nat × Nat) :
    merges.foldl (fun (acc : Nat × Nat) c =>
      if c.len ≠ 0 then (min acc.1 c.base, max acc.2 (c.base + c.len))
      else acc) a = widen_range a merges := by
  induction merges generalizing a with
  | nil => rfl
  | cons c cs ih =>
    rw [List.foldl_cons, widen_range, ih]

theorem widen_range_bounds (merges : List GtkTimSortRun) (a : Nat × Nat) :
    (widen_range a merges).1 ≤ a.1 ∧ a.2 ≤ (widen_range a merges).2 ∧
    ∀ c ∈ merges, c.len ≠ 0 → (widen_range a merges).1 ≤ c.base ∧
      c.base + c.len ≤ (widen_range a merges).2 := by
  induction merges generalizing a with
  | nil => exact ⟨le_refl _, le_refl _, fun c hc => by simp at hc⟩
  | cons c cs ih =>
    rw [widen_range]
    by_cases hc : c.len ≠ 0
    · rw [if_pos hc]
      obtain ⟨ih1, ih2, ih3⟩ := ih (min a.1 c.base, max a.2 (c.base + c.len))
      refine ⟨by omega, by omega, fun d hd hdl => ?_⟩
      rcases List.mem_cons.mp hd with hdc | hdcs
      · subst hdc
        constructor
        · calc (widen_range _ cs).1 ≤ min a.1 d.base := ih1
            _ ≤ d.base := by omega
        · calc d.base + d.len ≤ max a.2 (d.base + d.len) := by omega
            _ ≤ (widen_range _ cs).2 := ih2
      · exact ih3 d hdcs hdl
    · rw [if_neg hc]
      obtain ⟨ih1, ih2, ih3⟩ := ih a
      refine ⟨ih1, ih2, fun d hd hdl => ?_⟩
      rcases List.mem_cons.mp hd with hdc | hdcs
      · subst hdc
        exact absurd hdl hc
      · exact ih3 d hdcs hdl

theorem widen_range_attained (merges : List GtkTimSortRun) (a : Nat × Nat) :
    ((widen_range a merges).1 = a.1 ∨
      ∃ c ∈ merges, c.len ≠ 0 ∧ (widen_range a merges).1 = c.base) ∧
    ((widen_range a merges).2 = a.2 ∨
      ∃ c ∈ merges, c.len ≠ 0 ∧ (widen_range a merges).2 = c.base + c.len) := by
  induction merges generalizing a with
  | nil => exact ⟨Or.inl rfl, Or.inl rfl⟩
  | cons c cs ih =>
    rw [widen_range]
    by_cases hc : c.len ≠ 0
    · rw [if_pos hc]
      obtain ⟨ih1, ih2⟩ := ih (min a.1 c.base, max a.2 (c.base + c.len))
      constructor
      · rcases ih1 with h | ⟨d, hd, hdl, hde⟩
        · rcases Nat.le_total a.1 c.base with hm | hm
          · left
            rw [h]
            simp
            omega
          · right
            exact ⟨c, List.mem_cons_self c cs, hc, by rw [h]; simp; omega⟩
        · exact Or.inr ⟨d, List.mem_cons_of_mem c hd, hdl, hde⟩
      · rcases ih2 with h | ⟨d, hd, hdl, hde⟩
        · rcases Nat.le_total (c.base + c.len) a.2 with hm | hm
          · left
            rw [h]
            simp
            omega
          · right
            exact ⟨c, List.mem_cons_self c cs, hc, by rw [h]; simp; omega⟩
        · exact Or.inr ⟨d, List.mem_cons_of_mem c hd, hdl, hde⟩
    · rw [if_neg hc]
      obtain ⟨ih1, ih2⟩ := ih a
      constructor
      · rcases ih1 with h | ⟨d, hd, hdl, hde⟩
        · exact Or.inl h
        · exact Or.inr ⟨d, List.mem_cons_of_mem c hd, hdl, hde⟩
      · rcases ih2 with h | ⟨d, hd, hdl, hde⟩
        · exact Or.inl h
        · exact Or.inr ⟨d, List.mem_cons_of_mem c hd, hdl, hde⟩

theorem widen_range_of_all_zero (merges : List GtkTimSortRun) (a : Nat × Nat)
    (h : ∀ c ∈ merges, c.len = 0) : widen_range a merges = a := by
  induction merges generalizing a with
  | nil => rfl
  | cons c cs ih =>
    rw [widen_range, if_neg (by simpa using h c (List.mem_cons_self c cs))]
    exact ih a (fun d hd => h d (List.mem_cons_of_mem c hd))

theorem sort_step_eq (n : Nat) (merges : List GtkTimSortRun) :
    gtk_tim2_sort_model_sort_step n merges =
      (if (widen_range (n, 0) merges).1 < (widen_range (n, 0) merges).2 then
        (!merges.isEmpty, (widen_range (n, 0) merges).1,
          (widen_range (n, 0) merges).2 - (widen_range (n, 0) merges).1)
      else (!merges.isEmpty, 0, 0)) := by
  rw [gtk_tim2_sort_model_sort_step, foldl_eq_widen_range]

/-- C8: an incremental sort step reports, as `(out_position, out_n_items)`,
exactly the smallest contiguous range obtained by widening over every
merge with nonzero length that the engine performed in the step: the range
contains every such merge, its two endpoints are attained by merges, and
it is `(0, 0)` when no merge moved anything; `sort_cb` emits exactly that
range as its change notification whenever the step did any work. -/
theorem sort_step_minimal_range (n : Nat) (merges : List GtkTimSortRun)
    (hb : ∀ c ∈ merges, c.base + c.len ≤ n) :
    (∀ c ∈ merges, c.len ≠ 0 →
      (gtk_tim2_sort_model_sort_step n merges).2.1 ≤ c.base ∧
      c.base + c.len ≤ (gtk_tim2_sort_model_sort_step n merges).2.1 +
        (gtk_tim2_sort_model_sort_step n merges).2.2) ∧
    ((∃ c ∈ merges, c.len ≠ 0) →
      (∃ c ∈ merges, c.len ≠ 0 ∧
        c.base = (gtk_tim2_sort_model_sort_step n merges).2.1) ∧
      ∃ c ∈ merges, c.len ≠ 0 ∧ c.base + c.len =
        (gtk_tim2_sort_model_sort_step n merges).2.1 +
          (gtk_tim2_sort_model_sort_step n merges).2.2) ∧
    ((∀ c ∈ merges, c.len = 0) →
      (gtk_tim2_sort_model_sort_step n merges).2 = (0, 0)) ∧
    (∀ s : GtkTim2SortModel α, merges ≠ [] →
      (gtk_tim2_sort_model_sort_cb s merges).2 =
        (if 0 < (gtk_tim2_sort_model_sort_step s.items.length merges).2.2 then
          [((gtk_tim2_sort_model_sort_step s.items.length merges).2.1,
            (gtk_tim2_sort_model_sort_step s.items.length merges).2.2,
            (gtk_tim2_sort_model_sort_step s.items.length merges).2.2)]
        else [])) := by
  obtain ⟨hw1, hw2, hw3⟩ := widen_range_bounds merges (n, 0)
  obtain ⟨ha1, ha2⟩ := widen_range_attained merges (n, 0)
  refine ⟨?_, ?_, ?_, ?_⟩
  · intro c hc hcl
    rw [sort_step_eq]
    obtain ⟨hc1, hc2⟩ := hw3 c hc hcl
    rw [if_pos (by omega)]
    constructor
    · exact hc1
    · show c.base + c.len ≤ (widen_range (n, 0) merges).1 +
        ((widen_range (n, 0) merges).2 - (widen_range (n, 0) merges).1)
      omega
  · rintro ⟨c, hc, hcl⟩
    obtain ⟨hc1, hc2⟩ := hw3 c hc hcl
    have hbc := hb c hc
    rw [sort_step_eq, if_pos (by omega)]
    constructor
    · rcases ha1 with h | ⟨d, hd, hdl, hde⟩
      · simp only [] at h
        omega
      · exact ⟨d, hd, hdl, hde.symm⟩
    · rcases ha2 with h | ⟨d, hd, hdl, hde⟩
      · simp only [] at h
        omega
      · refine ⟨d, hd, hdl, ?_⟩
        show d.base + d.len = (widen_range (n, 0) merges).1 +
          ((widen_range (n, 0) merges).2 - (widen_range (n, 0) merges).1)
        obtain ⟨hd1, hd2⟩ := hw3 d hd hdl
        omega
  · intro hz
    rw [sort_step_eq, widen_range_of_all_zero merges (n, 0) hz]
    rw [if_neg (by omega)]
  · intro s hne
    have h1 : (gtk_tim2_sort_model_sort_step s.items.length merges).1 =
        true := by
      rw [sort_step_eq]
      split <;> simp [hne]
    simp only [gtk_tim2_sort_model_sort_cb, h1, if_true]

/-- Witness for `sort_step_minimal_range`: a step of a six-element buffer
whose engine reported merges `(3,2)`, `(1,0)` and `(0,2)` — the step's
range is attained and covers the active merges. -/
theorem sort_step_minimal_range_witness :
    (∀ c ∈ [GtkTimSortRun.mk 3 2, GtkTimSortRun.mk 1 0, GtkTimSortRun.mk 0 2],
      c.base + c.len ≤ 6) ∧
    ((∃ c ∈ [GtkTimSortRun.mk 3 2, GtkTimSortRun.mk 1 0,
        GtkTimSortRun.mk 0 2], c.len ≠ 0) →
      (∃ c ∈ [GtkTimSortRun.mk 3 2, GtkTimSortRun.mk 1 0,
          GtkTimSortRun.mk 0 2], c.len ≠ 0 ∧
        c.base = (gtk_tim2_sort_model_sort_step 6 [GtkTimSortRun.mk 3 2,
          GtkTimSortRun.mk 1 0, GtkTimSortRun.mk 0 2]).2.1) ∧
      ∃ c ∈ [GtkTimSortRun.mk 3 2, GtkTimSortRun.mk 1 0,
          GtkTimSortRun.mk 0 2], c.len ≠ 0 ∧ c.base + c.len =
        (gtk_tim2_sort_model_sort_step 6 [GtkTimSortRun.mk 3 2,
          GtkTimSortRun.mk 1 0, GtkTimSortRun.mk 0 2]).2.1 +
        (gtk_tim2_sort_model_sort_step 6 [GtkTimSortRun.mk 3 2,
          GtkTimSortRun.mk 1 0, GtkTimSortRun.mk 0 2]).2.2) :=
  ⟨by decide,
    (sort_step_minimal_range (α := Nat) 6 [GtkTimSortRun.mk 3 2,
      GtkTimSortRun.mk 1 0, GtkTimSortRun.mk 0 2] (by decide)).2.1⟩
